import Mathlib

/-!
Verification development for the go-plotly code generator
(package generator, file src/unnamed/part_000, plus the generated
graph_objects/layout.go). The Go source is shallowly embedded: pure
helpers become Lean functions, the per-target type-graph pipeline of
WriteTrace / WriteLayout / WriteConfig / WriteUnmarshal becomes
functions over explicit schema values, and the unordered iteration of
Go maps is made explicit by representing each map as an association
list in iteration order.
-/

namespace GoPlotly

/-! ## Byte/character order on strings.
Go compares strings byte-wise; for the ASCII identifiers produced by
the generator this coincides with the code-point order modelled here.
`charsLe` is the lexicographic order on the underlying character
lists, computed as a Bool so that concrete sorts evaluate. -/

def charsLe : List Char → List Char → Bool
  | [], _ => true
  | _ :: _, [] => false
  | c :: cs, d :: ds =>
    if c.toNat < d.toNat then true
    else if d.toNat < c.toNat then false
    else charsLe cs ds

def strLe (a b : String) : Bool := charsLe a.data b.data

/-! ## Namer (source: part_000 lines 423-448).
`symbolMap` is the flat pattern/replacement table handed to
strings.NewReplacer. All patterns are single characters, so the Go
replacer performs an independent per-character substitution in one
left-to-right pass; `cleanChars` models exactly that. -/

def symbolMap : List String :=
  ["=", "Eq",
   ">", "Gt",
   "-", "Hyphen",
   "<", "Lt",
   "|", "Or",
   "/", "Slash",
   "\\", "Doublebackslash",
   "^", "Cape",
   "(", "Lpar",
   ")", "Rpar",
   "[", "Lbracket",
   "]", "Rbracket",
   "+", "Plus",
   "?", "Question",
   "$", "Dollar"]

/-- Pair up the flat NewReplacer argument list into
(pattern, replacement) pairs, as strings.NewReplacer does. -/
def toPairs : List String → List (String × String)
  | a :: b :: rest => (a, b) :: toPairs rest
  | _ => []

/-- The image of a single character under the replacer built from
symbolMap: the replacement word when the character is a pattern,
the character itself otherwise. -/
def charImage (c : Char) : String :=
  match (toPairs symbolMap).find? (fun p => p.1 = String.singleton c) with
  | some p => p.2
  | none => String.singleton c

/-- Single left-to-right pass over the characters; replacement output
is emitted verbatim and never re-scanned. -/
def cleanChars : List Char → List Char
  | [] => []
  | c :: rest => (charImage c).data ++ cleanChars rest

/-- Model of cleanName (part_000 lines 442-445). -/
def cleanName (name : String) : String := ⟨cleanChars name.data⟩

/-- Character-level model of strings.ReplaceAll(value, single backslash,
two backslashes): each backslash is doubled, all other characters pass
through unchanged. -/
def escChars : List Char → List Char
  | [] => []
  | c :: rest => if c = '\\' then '\\' :: '\\' :: escChars rest else c :: escChars rest

/-- Model of cleanValue (part_000 lines 446-448). -/
def cleanValue (value : String) : String := ⟨escChars value.data⟩

/-- Decoder for the emitted string-literal payload: collapses each
doubled backslash back to a single one (the inverse pass described by
the spec for round-tripping). -/
def unescChars : List Char → List Char
  | [] => []
  | [c] => [c]
  | c :: d :: rest =>
    if c = '\\' ∧ d = '\\' then '\\' :: unescChars rest
    else c :: unescChars (d :: rest)

def unescValue (value : String) : String := ⟨unescChars value.data⟩

/-- Modelled from the spec: the external xstrings.ToCamelCase used for
attribute/type identifiers, which converts snake_case schema keys to
CamelCase (section 4.3: paper_bgcolor becomes PaperBgcolor). The Bool
argument records whether the next letter must be capitalized. -/
def camelChars : Bool → List Char → List Char
  | _, [] => []
  | up, c :: rest =>
    if c = '_' then camelChars true rest
    else (if up then c.toUpper else c) :: camelChars false rest

def toCamelCase (s : String) : String := ⟨camelChars true s.data⟩

/-! ## Value-type mapping (source: part_000 lines 405-421).
The ValType constants are declared in a schema file of this repository
that is not under src; the constructor names follow the constant names
used by the table. -/

inductive ValType where
  | dataArray
  | enum
  | boolean
  | number
  | integer
  | string
  | color
  | colorlist
  | colorscale
  | angle
  | subplotID
  | flagList
  | any
  | infoArray
deriving DecidableEq

def valTypeMap : ValType → String
  | .dataArray => "interface\x7b\x7d"
  | .enum => "NO-TYPE"
  | .boolean => "Bool"
  | .number => "float64"
  | .integer => "int64"
  | .string => "String"
  | .color => "Color"
  | .colorlist => "ColorList"
  | .colorscale => "ColorScale"
  | .angle => "float64"
  | .subplotID => "String"
  | .flagList => "NO-TYPE"
  | .any => "interface\x7b\x7d"
  | .infoArray => "interface\x7b\x7d"

/-! ## Type-graph data model.
Modelled from the spec (section 3): the descriptor structures
structField, sstruct, enumFile, flagList and typeFile are declared in
a file of this repository not under src; their fields follow the
accesses made by part_000 and the spec. The Go field named Type is
called Typ here because Type is reserved in Lean. -/

structure structField where
  Name : String
  JSONName : String
  Typ : String
  Description : List String
deriving DecidableEq

structure sstruct where
  Name : String
  Description : String
  Fields : List structField
deriving DecidableEq

structure enumValue where
  Value : String
  Name : String
deriving DecidableEq

structure enumFile where
  Name : String
  Values : List enumValue
deriving DecidableEq

structure flagValue where
  Flag : String
  Name : String
deriving DecidableEq

structure flagList where
  Name : String
  Flags : List flagValue
deriving DecidableEq

structure typeFile where
  MainType : sstruct
  Objects : List sstruct
  Enums : List enumFile
  FlagLists : List flagList
deriving DecidableEq

/-! ## Schema model.
An attribute node carries its value-type classification and, for
object / enumerated / flag-list nodes, its nested content (spec
section 3). A Go map over attribute names has no stable iteration
order; an AttrList records one concrete iteration order explicitly,
so order-(in)dependence of the pipeline can be stated. -/

mutual
inductive AttrNode where
  | scalar (vt : ValType)
  | object (attrs : AttrList)
  | enumerated (values : List String)
  | flaglist (flags : List String)
deriving DecidableEq

inductive AttrList where
  | nil
  | cons (name : String) (node : AttrNode) (rest : AttrList)
deriving DecidableEq
end

/-- A trace schema entry: wire-level type tag, meta description, own
attribute tree and layout-contribution attribute tree, the latter two
in iteration order. -/
structure Trace where
  type : String
  description : String
  attributes : AttrList
  layoutAttributes : AttrList
deriving DecidableEq

instance : Inhabited Trace := ⟨⟨"", "", .nil, .nil⟩⟩

/-- The schema root: traces keyed by name (in iteration order), the
layout attribute tree and the config attribute tree. -/
structure Schema where
  traces : List (String × Trace)
  layout : AttrList
  config : AttrList
deriving DecidableEq

/-- Result accumulator of a parseAttributes call: the fields of the
enclosing type plus the Objects, Enums and FlagLists registered while
walking the subtree. -/
structure ParseRes where
  fields : List structField
  objects : List sstruct
  enums : List enumFile
  flags : List flagList
deriving DecidableEq

def ParseRes.append (a b : ParseRes) : ParseRes :=
  ⟨a.fields ++ b.fields, a.objects ++ b.objects, a.enums ++ b.enums, a.flags ++ b.flags⟩

mutual
/-- Modelled from the spec: typeFile.parseAttributes
(section 4.1), declared in a repository file not under src. For each
attribute name in iteration order it classifies the node: a primitive
leaf maps its value type through valTypeMap; an object synthesizes a
new type named parent type name plus normalized attribute name,
recurses and registers the result in Objects; an enumerated node
synthesizes an enum named the same way whose variants come from
identifier synthesis while retaining the raw value; a flag-list node
is analogous. JSONName always keeps the original schema key. -/
def parseAttrs (typeName parentName : String) : AttrList → ParseRes
  | .nil => ⟨[], [], [], []⟩
  | .cons n node rest =>
    ParseRes.append (parseAttrOne typeName parentName n node) (parseAttrs typeName parentName rest)

/-- Modelled from the spec: the per-node classification step of
parseAttributes (section 4.1). -/
def parseAttrOne (typeName parentName n : String) : AttrNode → ParseRes
  | .scalar vt =>
    ⟨[⟨toCamelCase n, n, valTypeMap vt, []⟩], [], [], []⟩
  | .object attrs =>
    let newName := parentName ++ toCamelCase n
    let inner := parseAttrs newName newName attrs
    ⟨[⟨toCamelCase n, n, newName, []⟩],
      ⟨newName, "", inner.fields⟩ :: inner.objects, inner.enums, inner.flags⟩
  | .enumerated values =>
    let newName := parentName ++ toCamelCase n
    ⟨[⟨toCamelCase n, n, newName, []⟩], [],
      [⟨newName, values.map (fun v => ⟨v, newName ++ cleanName (toCamelCase v)⟩)⟩], []⟩
  | .flaglist flags =>
    let newName := parentName ++ toCamelCase n
    ⟨[⟨toCamelCase n, n, newName, []⟩], [], [],
      [⟨newName, flags.map (fun f => ⟨f, newName ++ cleanName (toCamelCase f)⟩)⟩]⟩
end

/-! ## Per-target pipelines (source: part_000). -/

/-- The fixed discriminator field installed first in every trace main
type (part_000 lines 84-91). -/
def discriminatorField : structField :=
  ⟨"Type", "type", "TraceType", ["is the type of the plot"]⟩

/-- The type graph built by WriteTrace (part_000 lines 77-102): main
type named after the camel-cased wire tag, discriminator field first,
then the parsed attribute fields and the registered nested types. -/
def buildTraceFile (trace : Trace) : typeFile :=
  let name := toCamelCase trace.type
  let res := parseAttrs name name trace.attributes
  ⟨⟨name, trace.description, discriminatorField :: res.fields⟩,
    res.objects, res.enums, res.flags⟩

/-- The pre-sort layout type graph of WriteLayout (part_000 lines
189-213): the layout attribute contribution followed by every trace
layout-contribution in trace iteration order; each parseAttributes
call appends its fields to the main type and its nested descriptors
to the shared lists. -/
def layoutRawFile (s : Schema) : typeFile :=
  let base := parseAttrs "Layout" "Layout" s.layout
  let contrib := s.traces.map (fun p => parseAttrs (toCamelCase p.1) "Layout" p.2.layoutAttributes)
  let all := contrib.foldl ParseRes.append base
  ⟨⟨"Layout", "Plot layout options", all.fields⟩, all.objects, all.enums, all.flags⟩

/-- Field order used by sort.Sort on the field list: by field Name
(the sstruct sort interface is declared in a repository file not under
src; the spec, section 3, fixes the key as the field name). -/
def fieldLe (f g : structField) : Bool := strLe f.Name g.Name

def enumLe (e u : enumFile) : Bool := strLe e.Name u.Name

/-- The contract Go documents for sort.Sort on the field list: the
output is some permutation of the input, ordered by field name.
Stability is not promised, so every such permutation is an admissible
outcome; in particular the relative order of same-named fields after
the sort is unspecified. -/
def sortSpec (input output : List structField) : Prop :=
  List.Perm output input ∧ List.Pairwise (fun f g => fieldLe f g = true) output

/-- Concrete sort used by the pipeline model: a stable insertion sort,
one admissible outcome of sortSpec. Properties proved of the pipeline
through sortFields are ordering facts that hold for every admissible
outcome; order-among-equals facts are stated against sortSpec
instead. -/
def sortFields (fs : List structField) : List structField :=
  List.insertionSort (fun f g => fieldLe f g = true) fs

def sortEnums (es : List enumFile) : List enumFile :=
  List.insertionSort (fun e u => enumLe e u = true) es

/-- Duplicate-field removal of WriteLayout (part_000 lines 218-229):
one scan, a name already seen causes the field to be dropped, so the
first occurrence in scan order survives unchanged. The seen-set models
the fieldMap keys. -/
def dedupFieldsAux (seen : List String) : List structField → List structField
  | [] => []
  | f :: rest =>
    if f.Name ∈ seen then dedupFieldsAux seen rest
    else f :: dedupFieldsAux (f.Name :: seen) rest

def dedupFields (fs : List structField) : List structField := dedupFieldsAux [] fs

/-- Appends vs to the Values of the first enum with the given name
(the enumMap index always points at that unique entry). -/
def addValues (name : String) (vs : List enumValue) : List enumFile → List enumFile
  | [] => []
  | u :: rest =>
    if u.Name = name then { u with Values := u.Values ++ vs } :: rest
    else u :: addValues name vs rest

/-- Duplicate-enum merge of WriteLayout (part_000 lines 231-243): a
first occurrence of a Name is appended to the accumulator; a later
occurrence appends its whole Values list onto the entry recorded for
that Name. -/
def mergeEnumsAux (acc : List enumFile) : List enumFile → List enumFile
  | [] => acc
  | e :: rest =>
    if acc.any (fun u => u.Name = e.Name) then mergeEnumsAux (addValues e.Name e.Values acc) rest
    else mergeEnumsAux (acc ++ [e]) rest

def mergeEnums (es : List enumFile) : List enumFile := mergeEnumsAux [] es

/-- The ten axis fields appended by the layout fix-up (part_000 lines
245-255), in append order: XAxis2 to XAxis6 typed LayoutXaxis, then
YAxis2 to YAxis6 typed LayoutYaxis, with lowercase wire names. -/
def axisFields : List structField :=
  ((List.range' 2 5).map fun i =>
    ⟨"XAxis" ++ toString i, "xaxis" ++ toString i, "LayoutXaxis",
      ["X Axis number " ++ toString i]⟩) ++
  ((List.range' 2 5).map fun i =>
    ⟨"YAxis" ++ toString i, "yaxis" ++ toString i, "LayoutYaxis",
      ["Y Axis number " ++ toString i]⟩)

/-- The axis fix-up step itself: appends the ten fields to the main
type field list and touches nothing else. -/
def axisFixup (t : typeFile) : typeFile :=
  { t with MainType := { t.MainType with Fields := t.MainType.Fields ++ axisFields } }

/-- Intermediate stage of WriteLayout after the two sort.Sort calls
(part_000 lines 215-216). -/
def layoutSortedFile (s : Schema) : typeFile :=
  let t := layoutRawFile s
  { t with MainType := { t.MainType with Fields := sortFields t.MainType.Fields },
           Enums := sortEnums t.Enums }

/-- The complete type graph handed to rendering by WriteLayout
(part_000 lines 189-255): build, sort, remove duplicate fields, merge
duplicate enums, append the axis fields. -/
def buildLayoutFile (s : Schema) : typeFile :=
  let t := layoutSortedFile s
  axisFixup
    { t with MainType := { t.MainType with Fields := dedupFields t.MainType.Fields },
             Enums := mergeEnums t.Enums }

/-- The type graph built by WriteConfig (part_000 lines 314-329); note
no sorting, deduplication or merging is applied. -/
def buildConfigFile (s : Schema) : typeFile :=
  let res := parseAttrs "Config" "Config" s.config
  ⟨⟨"Config", "Plot config options", res.fields⟩, res.objects, res.enums, res.flags⟩

/-- The camel-cased trace type names emitted by WriteUnmarshal
(part_000 lines 387-398), collected from the traces map and sorted
with sort.Strings. -/
def buildUnmarshalTypes (s : Schema) : List String :=
  List.insertionSort (fun a b => strLe a b = true) (s.traces.map (fun p => toCamelCase p.1))

/-! ## Rendered output and persistence (source: part_000 lines 47-74,
104-144, 163-186, 257-284, 288-311, 331-358, 361-384).
The template bodies (templates directory) are not under src, so the
three template renderers are abstract function parameters; everything
the Go code prints directly (the headers) is modelled verbatim. -/

def doNotEdit : String := "// Code generated by go-plotly/generator. DO NOT EDIT."

/-- The header printed by WriteTrace via Fprintf (part_000 lines
104-119), with the main type name and the trace name substituted. -/
def traceHeader (mainName traceName : String) : String :=
  "package grob\n\n" ++ doNotEdit ++ "\n\nvar TraceType" ++ mainName ++
  " TraceType = \"" ++ traceName ++ "\"\n\nfunc (trace *" ++ mainName ++
  ") GetType() TraceType \x7b\n\treturn TraceType" ++ mainName ++ "\n\x7d\n"

/-- The header printed by WriteLayout and WriteConfig via Fprint
(part_000 lines 257-259 and 331-333). -/
def plainHeader : String := "package grob\n\n" ++ doNotEdit

/-- Abstract renderers standing for trace.tmpl, enum.tmpl,
flaglist.tmpl and unmarshal.tmpl, whose bodies are not under src. -/
structure Renderers where
  renderStruct : sstruct → String
  renderEnum : enumFile → String
  renderFlag : flagList → String
  renderUnmarshal : List String → String

/-- The body every Write function emits after its header: the main
type, then each nested object, each enum, each flag list, in order. -/
def renderBody (r : Renderers) (t : typeFile) : String :=
  r.renderStruct t.MainType ++
  String.join (t.Objects.map r.renderStruct) ++
  String.join (t.Enums.map r.renderEnum) ++
  String.join (t.FlagLists.map r.renderFlag)

/-- Go map indexing with zero value for a missing key, as used by
WriteTrace on Schema.Traces (part_000 line 78). -/
def lookupTrace (s : Schema) (traceName : String) : Trace :=
  ((s.traces.find? (fun p => p.1 = traceName)).map Prod.snd).getD default

/-- The full text written by WriteTrace (part_000 lines 77-144). -/
def writeTraceOut (r : Renderers) (s : Schema) (traceName : String) : String :=
  let tf := buildTraceFile (lookupTrace s traceName)
  traceHeader tf.MainType.Name traceName ++ renderBody r tf

/-- The full text written by WriteLayout (part_000 lines 189-285). -/
def writeLayoutOut (r : Renderers) (s : Schema) : String :=
  plainHeader ++ renderBody r (buildLayoutFile s)

/-- The full text written by WriteConfig (part_000 lines 314-358). -/
def writeConfigOut (r : Renderers) (s : Schema) : String :=
  plainHeader ++ renderBody r (buildConfigFile s)

/-- The full text written by WriteUnmarshal (part_000 lines 387-398). -/
def writeUnmarshalOut (r : Renderers) (s : Schema) : String :=
  r.renderUnmarshal (buildUnmarshalTypes s)

/-- The file sink reached through the Creator capability: the list of
files created so far, with their written bytes. -/
structure FS where
  files : List (String × String)
deriving DecidableEq

/-- The go/format.Source gate is external; it is a parameter returning
none exactly when the rendered text fails the Go syntax check, and
otherwise the formatted bytes. -/
def FmtSource := String → Option String

/-- Common persistence sequence of the four Create functions: render
into a buffer, run the format gate, and only on success create the
destination file and write the formatted bytes (part_000 lines 50-74,
163-186, 288-311, 361-384). On gate failure the function returns the
wrapping error before any destination is opened. -/
def persist (fmtSource : FmtSource) (fs : FS) (path : String) (src : String) :
    FS × Option String :=
  match fmtSource src with
  | none => (fs, some "cannot format source")
  | some b => (⟨fs.files ++ [(path, b)]⟩, none)

/-- CreateTrace (part_000 lines 50-74). -/
def createTrace (fmtSource : FmtSource) (r : Renderers) (s : Schema)
    (dir name : String) (fs : FS) : FS × Option String :=
  persist fmtSource fs (dir ++ "/" ++ name ++ "_gen.go") (writeTraceOut r s name)

/-- CreateLayout (part_000 lines 163-186). -/
def createLayout (fmtSource : FmtSource) (r : Renderers) (s : Schema)
    (dir : String) (fs : FS) : FS × Option String :=
  persist fmtSource fs (dir ++ "/" ++ "layout_gen.go") (writeLayoutOut r s)

/-- CreateConfig (part_000 lines 288-311). -/
def createConfig (fmtSource : FmtSource) (r : Renderers) (s : Schema)
    (dir : String) (fs : FS) : FS × Option String :=
  persist fmtSource fs (dir ++ "/" ++ "config_gen.go") (writeConfigOut r s)

/-- CreateUnmarshal (part_000 lines 361-384). -/
def createUnmarshal (fmtSource : FmtSource) (r : Renderers) (s : Schema)
    (dir : String) (fs : FS) : FS × Option String :=
  persist fmtSource fs (dir ++ "/" ++ "unmarshal_gen.go") (writeUnmarshalOut r s)

/-! ## Order facts about the string comparison. -/

theorem charsLe_total (as bs : List Char) : charsLe as bs = true ∨ charsLe bs as = true := by
  induction as generalizing bs with
  | nil => left; simp [charsLe]
  | cons c cs ih =>
    cases bs with
    | nil => right; simp [charsLe]
    | cons d ds =>
      rcases Nat.lt_trichotomy c.toNat d.toNat with h | h | h
      · left; simp [charsLe, h]
      · have h1 : ¬ c.toNat < d.toNat := by omega
        have h2 : ¬ d.toNat < c.toNat := by omega
        rcases ih ds with h3 | h3
        · left; simpa [charsLe, h1, h2] using h3
        · right; simpa [charsLe, h1, h2] using h3
      · right; simp [charsLe, h]

theorem charsLe_cons (c d : Char) (cs ds : List Char) :
    charsLe (c :: cs) (d :: ds) = true ↔
      (c.toNat < d.toNat ∨ (c.toNat = d.toNat ∧ charsLe cs ds = true)) := by
  simp only [charsLe]
  by_cases h1 : c.toNat < d.toNat
  · simp [h1]
  · by_cases h2 : d.toNat < c.toNat
    · simp [h1, h2]; omega
    · have h3 : c.toNat = d.toNat := by omega
      simp [h1, h2, h3]

theorem charsLe_trans (as bs cs : List Char) (h1 : charsLe as bs = true)
    (h2 : charsLe bs cs = true) : charsLe as cs = true := by
  induction as generalizing bs cs with
  | nil => simp [charsLe]
  | cons a as' ih =>
    cases bs with
    | nil => simp [charsLe] at h1
    | cons b bs' =>
      cases cs with
      | nil => simp [charsLe] at h2
      | cons c cs' =>
        rw [charsLe_cons] at h1 h2 ⊢
        rcases h1 with h1 | ⟨h1e, h1r⟩
        · rcases h2 with h2 | ⟨h2e, _⟩
          · left; omega
          · left; omega
        · rcases h2 with h2 | ⟨h2e, h2r⟩
          · left; omega
          · right; exact ⟨by omega, ih bs' cs' h1r h2r⟩

theorem charsLe_antisymm (as bs : List Char) (h1 : charsLe as bs = true)
    (h2 : charsLe bs as = true) : as = bs := by
  induction as generalizing bs with
  | nil =>
    cases bs with
    | nil => rfl
    | cons b bs' => simp [charsLe] at h2
  | cons a as' ih =>
    cases bs with
    | nil => simp [charsLe] at h1
    | cons b bs' =>
      rw [charsLe_cons] at h1 h2
      have hn : a.toNat = b.toNat := by omega
      have hval : a = b := by
        unfold Char.toNat at hn
        exact Char.eq_of_val_eq (UInt32.toNat.inj hn)
      have h1r : charsLe as' bs' = true := by
        rcases h1 with h1 | ⟨_, h1r⟩
        · omega
        · exact h1r
      have h2r : charsLe bs' as' = true := by
        rcases h2 with h2 | ⟨_, h2r⟩
        · omega
        · exact h2r
      rw [hval, ih bs' h1r h2r]

theorem strLe_total (a b : String) : strLe a b = true ∨ strLe b a = true :=
  charsLe_total a.data b.data

theorem strLe_trans (a b c : String) (h1 : strLe a b = true) (h2 : strLe b c = true) :
    strLe a c = true :=
  charsLe_trans a.data b.data c.data h1 h2

theorem strLe_antisymm (a b : String) (h1 : strLe a b = true) (h2 : strLe b a = true) :
    a = b := by
  have h := charsLe_antisymm a.data b.data h1 h2
  cases a; cases b; exact congrArg String.mk h

instance : IsTotal structField (fun f g => fieldLe f g = true) :=
  ⟨fun f g => strLe_total f.Name g.Name⟩

instance : IsTrans structField (fun f g => fieldLe f g = true) :=
  ⟨fun f g h => strLe_trans f.Name g.Name h.Name⟩

instance : IsTotal enumFile (fun e u => enumLe e u = true) :=
  ⟨fun e u => strLe_total e.Name u.Name⟩

instance : IsTrans enumFile (fun e u => enumLe e u = true) :=
  ⟨fun e u v => strLe_trans e.Name u.Name v.Name⟩

instance : IsTotal String (fun a b => strLe a b = true) := ⟨strLe_total⟩

instance : IsTrans String (fun a b => strLe a b = true) := ⟨strLe_trans⟩

instance : IsAntisymm String (fun a b => strLe a b = true) := ⟨strLe_antisymm⟩

/-! ## Facts about duplicate-field removal. -/

theorem dedupFieldsAux_sublist (fs : List structField) (seen : List String) :
    (dedupFieldsAux seen fs).Sublist fs := by
  induction fs generalizing seen with
  | nil => simp [dedupFieldsAux]
  | cons f rest ih =>
    by_cases h : f.Name ∈ seen
    · simp only [dedupFieldsAux, if_pos h]
      exact (ih seen).trans (List.sublist_cons_self f rest)
    · simp only [dedupFieldsAux, if_neg h]
      exact (ih (f.Name :: seen)).cons₂ f

theorem dedupFieldsAux_not_seen (fs : List structField) (seen : List String)
    (g : structField) (hg : g ∈ dedupFieldsAux seen fs) : g.Name ∉ seen := by
  induction fs generalizing seen with
  | nil => simp [dedupFieldsAux] at hg
  | cons f rest ih =>
    by_cases h : f.Name ∈ seen
    · simp only [dedupFieldsAux, if_pos h] at hg
      exact ih seen hg
    · simp only [dedupFieldsAux, if_neg h] at hg
      rcases List.mem_cons.mp hg with hg | hg
      · rw [hg]; exact h
      · intro hmem
        exact ih (f.Name :: seen) hg (List.mem_cons_of_mem _ hmem)

theorem dedupFieldsAux_nodup (fs : List structField) (seen : List String) :
    ((dedupFieldsAux seen fs).map (fun f => f.Name)).Nodup := by
  induction fs generalizing seen with
  | nil => simp [dedupFieldsAux]
  | cons f rest ih =>
    by_cases h : f.Name ∈ seen
    · simpa only [dedupFieldsAux, if_pos h] using ih seen
    · simp only [dedupFieldsAux, if_neg h, List.map_cons, List.nodup_cons]
      refine ⟨fun hmem => ?_, ih (f.Name :: seen)⟩
      rcases List.mem_map.mp hmem with ⟨g, hg, hgn⟩
      exact dedupFieldsAux_not_seen rest (f.Name :: seen) g hg (by rw [hgn]; exact List.mem_cons_self _ _)

theorem dedupFieldsAux_find? (fs : List structField) (seen : List String) (n : String)
    (hn : n ∉ seen) :
    (dedupFieldsAux seen fs).find? (fun f => f.Name == n) = fs.find? (fun f => f.Name == n) := by
  induction fs generalizing seen with
  | nil => simp [dedupFieldsAux]
  | cons f rest ih =>
    by_cases h : f.Name ∈ seen
    · have hne : ¬ (f.Name == n) = true := by
        intro hbeq
        exact hn (by rw [← eq_of_beq hbeq]; exact h)
      simp only [dedupFieldsAux, if_pos h]
      rw [ih seen hn, List.find?_cons_of_neg rest (by simpa using hne)]
    · simp only [dedupFieldsAux, if_neg h]
      by_cases heq : f.Name = n
      · rw [List.find?_cons_of_pos _ (by simpa using heq),
          List.find?_cons_of_pos _ (by simpa using heq)]
      · have hn2 : n ∉ f.Name :: seen := by
          intro hc
          rcases List.mem_cons.mp hc with hc | hc
          · exact heq hc.symm
          · exact hn hc
        rw [List.find?_cons_of_neg _ (by simpa using heq),
          List.find?_cons_of_neg _ (by simpa using heq)]
        exact ih (f.Name :: seen) hn2

theorem dedupFieldsAux_countP (fs : List structField) (seen : List String) (n : String)
    (hn : n ∉ seen) :
    (dedupFieldsAux seen fs).countP (fun f => f.Name == n) =
      min (fs.countP (fun f => f.Name == n)) 1 := by
  induction fs generalizing seen with
  | nil => simp [dedupFieldsAux]
  | cons f rest ih =>
    by_cases h : f.Name ∈ seen
    · have hne : ¬ (f.Name == n) = true := by
        intro hbeq
        exact hn (by rw [← eq_of_beq hbeq]; exact h)
      simp only [dedupFieldsAux, if_pos h, List.countP_cons, if_neg hne, Nat.add_zero]
      exact ih seen hn
    · by_cases heq : f.Name = n
      · have hpos : (f.Name == n) = true := by simpa using heq
        have hzero : (dedupFieldsAux (f.Name :: seen) rest).countP (fun f => f.Name == n) = 0 := by
          rw [List.countP_eq_zero]
          intro g hg hbeq
          exact dedupFieldsAux_not_seen rest (f.Name :: seen) g hg
            (by rw [eq_of_beq hbeq, ← heq]; exact List.mem_cons_self _ _)
        simp only [dedupFieldsAux, if_neg h, List.countP_cons, hpos, if_true, hzero]
        omega
      · have hn2 : n ∉ f.Name :: seen := by
          intro hc
          rcases List.mem_cons.mp hc with hc | hc
          · exact heq hc.symm
          · exact hn hc
        have hne : ¬ (f.Name == n) = true := by simpa using heq
        simp only [dedupFieldsAux, if_neg h, List.countP_cons, if_neg hne, Nat.add_zero]
        exact ih (f.Name :: seen) hn2

/-! ## Facts about duplicate-enum merging. -/

/-- The names of a list of enums, in order. -/
def enumNames (es : List enumFile) : List String := es.map (fun e => e.Name)

/-- All values contributed for a given enum name, concatenated in
contribution order. -/
def valuesOf (n : String) : List enumFile → List enumValue
  | [] => []
  | e :: rest => (if e.Name = n then e.Values else []) ++ valuesOf n rest

theorem valuesOf_append (n : String) (l1 l2 : List enumFile) :
    valuesOf n (l1 ++ l2) = valuesOf n l1 ++ valuesOf n l2 := by
  induction l1 with
  | nil => simp [valuesOf]
  | cons e rest ih => simp [valuesOf, ih]

theorem valuesOf_eq_nil (n : String) (l : List enumFile) (h : n ∉ enumNames l) :
    valuesOf n l = [] := by
  induction l with
  | nil => rfl
  | cons e rest ih =>
    simp only [enumNames, List.map_cons, List.mem_cons] at h
    push_neg at h
    have h1 : ¬ e.Name = n := fun hc => h.1 hc.symm
    simp only [valuesOf, if_neg h1, List.nil_append]
    exact ih (by simpa [enumNames] using h.2)

theorem enumNames_addValues (m : String) (vs : List enumValue) (l : List enumFile) :
    enumNames (addValues m vs l) = enumNames l := by
  induction l with
  | nil => rfl
  | cons e rest ih =>
    by_cases h : e.Name = m
    · simp [addValues, if_pos h, enumNames]
    · simp only [addValues, if_neg h, enumNames, List.map_cons]
      simpa [enumNames] using ih

theorem valuesOf_addValues_ne (n m : String) (vs : List enumValue) (l : List enumFile)
    (hnm : m ≠ n) : valuesOf n (addValues m vs l) = valuesOf n l := by
  induction l with
  | nil => rfl
  | cons e rest ih =>
    by_cases h : e.Name = m
    · simp [addValues, if_pos h, valuesOf, if_neg (h ▸ hnm)]
    · simp [addValues, if_neg h, valuesOf, ih]

theorem valuesOf_addValues_eq (n : String) (vs : List enumValue) (l : List enumFile)
    (hmem : n ∈ enumNames l) (hnd : (enumNames l).Nodup) :
    valuesOf n (addValues n vs l) = valuesOf n l ++ vs := by
  induction l with
  | nil => simp [enumNames] at hmem
  | cons e rest ih =>
    simp only [enumNames, List.map_cons, List.nodup_cons] at hnd
    by_cases h : e.Name = n
    · have hrest : valuesOf n rest = [] :=
        valuesOf_eq_nil n rest (by rw [← h]; exact hnd.1)
      simp [addValues, if_pos h, valuesOf, hrest]
    · simp only [enumNames, List.map_cons, List.mem_cons] at hmem
      rcases hmem with hmem | hmem
      · exact absurd hmem.symm h
      · simp [addValues, if_neg h, valuesOf, if_neg h,
          ih (by simpa [enumNames] using hmem) (by simpa [enumNames] using hnd.2)]

theorem mergeEnumsAux_names_nodup (es acc : List enumFile) (hnd : (enumNames acc).Nodup) :
    (enumNames (mergeEnumsAux acc es)).Nodup := by
  induction es generalizing acc with
  | nil => exact hnd
  | cons e rest ih =>
    by_cases h : acc.any (fun u => u.Name = e.Name)
    · simp only [mergeEnumsAux, if_pos h]
      exact ih (addValues e.Name e.Values acc) (by rwa [enumNames_addValues])
    · simp only [mergeEnumsAux, if_neg h]
      refine ih (acc ++ [e]) ?_
      have hnot : e.Name ∉ enumNames acc := by
        intro hmem
        rcases List.mem_map.mp hmem with ⟨u, hu, hun⟩
        exact h (List.any_eq_true.mpr ⟨u, hu, by simp [hun]⟩)
      simp [enumNames, List.nodup_append]
      exact ⟨by simpa [enumNames] using hnd, fun u hu hun => hnot (by
        simpa [enumNames, hun] using List.mem_map_of_mem (fun e => e.Name) hu)⟩

theorem mergeEnumsAux_names_sublist (es acc : List enumFile) :
    (enumNames (mergeEnumsAux acc es)).Sublist (enumNames acc ++ enumNames es) := by
  induction es generalizing acc with
  | nil => simp [mergeEnumsAux, enumNames]
  | cons e rest ih =>
    by_cases h : acc.any (fun u => u.Name = e.Name)
    · simp only [mergeEnumsAux, if_pos h]
      refine ((ih (addValues e.Name e.Values acc)).trans ?_)
      rw [enumNames_addValues]
      have : enumNames (e :: rest) = e.Name :: enumNames rest := rfl
      rw [this]
      have step : (enumNames acc ++ enumNames rest).Sublist
          (enumNames acc ++ e.Name :: enumNames rest) :=
        List.Sublist.append_left (List.sublist_cons_self e.Name (enumNames rest)) _
      exact step
    · simp only [mergeEnumsAux, if_neg h]
      refine ((ih (acc ++ [e])).trans ?_)
      have h1 : enumNames (acc ++ [e]) = enumNames acc ++ [e.Name] := by
        simp [enumNames]
      have h2 : enumNames (e :: rest) = e.Name :: enumNames rest := rfl
      rw [h1, h2, List.append_assoc]
      exact List.Sublist.refl _

theorem mergeEnumsAux_valuesOf (n : String) (es acc : List enumFile)
    (hnd : (enumNames acc).Nodup) :
    valuesOf n (mergeEnumsAux acc es) = valuesOf n acc ++ valuesOf n es := by
  induction es generalizing acc with
  | nil => simp [mergeEnumsAux, valuesOf]
  | cons e rest ih =>
    by_cases h : acc.any (fun u => u.Name = e.Name)
    · have hmem : e.Name ∈ enumNames acc := by
        rcases List.any_eq_true.mp h with ⟨u, hu, hun⟩
        exact List.mem_map.mpr ⟨u, hu, by simpa using hun⟩
      simp only [mergeEnumsAux, if_pos h]
      rw [ih (addValues e.Name e.Values acc) (by rwa [enumNames_addValues])]
      by_cases hn : e.Name = n
      · rw [hn] at hmem
        rw [hn, valuesOf_addValues_eq n e.Values acc hmem hnd]
        simp [valuesOf, if_pos hn]
      · rw [valuesOf_addValues_ne n e.Name e.Values acc hn]
        simp [valuesOf, if_neg hn]
    · simp only [mergeEnumsAux, if_neg h]
      have hnot : e.Name ∉ enumNames acc := by
        intro hmem
        rcases List.mem_map.mp hmem with ⟨u, hu, hun⟩
        exact h (List.any_eq_true.mpr ⟨u, hu, by simp [hun]⟩)
      have hnd2 : (enumNames (acc ++ [e])).Nodup := by
        simp only [enumNames, List.map_append, List.nodup_append]
        refine ⟨by simpa [enumNames] using hnd, by simp, ?_⟩
        intro a ha hb
        simp only [List.map_cons, List.map_nil, List.mem_cons, List.not_mem_nil, or_false] at hb
        rw [hb] at ha
        exact hnot (by simpa [enumNames] using ha)
      rw [ih (acc ++ [e]) hnd2, valuesOf_append]
      simp [valuesOf]

theorem mergeEnums_valuesOf (es : List enumFile) (n : String) :
    valuesOf n (mergeEnums es) = valuesOf n es := by
  have := mergeEnumsAux_valuesOf n es [] (by simp [enumNames])
  simpa [mergeEnums, valuesOf] using this

theorem mergeEnums_names_nodup (es : List enumFile) :
    (enumNames (mergeEnums es)).Nodup :=
  mergeEnumsAux_names_nodup es [] (by simp [enumNames])

/-! ## Claim C1. -/

/-- Schema with two traces whose layout-contributions both declare the
shared enumerated attribute shape_type, with value sets circle, square
and square, triangle respectively (the example named by C1). -/
def twoTraceSchema : Schema :=
  ⟨[("aaa", ⟨"aaa", "", .nil, .cons "shape_type" (.enumerated ["circle", "square"]) .nil⟩),
    ("bbb", ⟨"bbb", "", .nil, .cons "shape_type" (.enumerated ["square", "triangle"]) .nil⟩)],
   .nil, .nil⟩

/-- C1, counterexample: on the two-contributor example named by the
claim, the merged layout enum keeps the duplicated raw value square,
giving four variants rather than the claimed three: the merge
(part_000 lines 231-243) concatenates the contributed value lists
without removing duplicate variants. -/
theorem claim1_counterexample :
    ((buildLayoutFile twoTraceSchema).Enums.map
        (fun e => (e.Name, e.Values.map (fun v => v.Value))))
      = [("LayoutShapeType", ["circle", "square", "square", "triangle"])]
    ∧ ((buildLayoutFile twoTraceSchema).Enums.map (fun e => e.Values.length)) = [4]
    ∧ ((buildLayoutFile twoTraceSchema).Enums.map
        (fun e => (e.Values.map (fun v => v.Value)).count "square")) = [2] := by
  refine ⟨by decide, by decide, by decide⟩

/-- C1, amended: merging duplicate enums keyed by Name preserves, for
every name, the concatenation of all contributed value lists in
processing order, so the merged value collection equals the union of
the contributions as a multiset, with duplicates retained rather than
removed; each Name appears once in the merged list; this is the merge
WriteLayout applies to its enum list; on the two-contributor example
the merged values are circle, square, square, triangle. -/
theorem claim1_enum_merge_union (es : List enumFile) (n : String) (s : Schema) :
    valuesOf n (mergeEnums es) = valuesOf n es
    ∧ (enumNames (mergeEnums es)).Nodup
    ∧ (buildLayoutFile s).Enums = mergeEnums (sortEnums (layoutRawFile s).Enums)
    ∧ (mergeEnums [⟨"ShapeType", [⟨"circle", "Circle"⟩, ⟨"square", "Square"⟩]⟩,
        ⟨"ShapeType", [⟨"square", "Square"⟩, ⟨"triangle", "Triangle"⟩]⟩]).map
          (fun e => e.Values.map (fun v => v.Value))
        = [["circle", "square", "square", "triangle"]] :=
  ⟨mergeEnums_valuesOf es n, mergeEnums_names_nodup es, rfl, by decide⟩

/-! ## Claim C2. -/

/-- Two same-named layout contributions in contribution order: the
earlier contributor supplies Typ String, the later Typ Bool. -/
def contribFields : List structField :=
  [⟨"A", "a", "String", []⟩, ⟨"A", "a", "Bool", []⟩]

/-- The other name-ordered permutation of contribFields, with the
later contribution first. -/
def swappedFields : List structField :=
  [⟨"A", "a", "Bool", []⟩, ⟨"A", "a", "String", []⟩]

/-- C2, counterexample: sort.Sort (part_000 line 215) runs between
the contributor loop and the dedup loop and promises only the
name-ordering (sortSpec), not stability, so on two same-named fields
both orders are admissible sort outputs; under the identity order the
dedup pass keeps the earlier contribution, under the swapped order it
keeps the later contribution with its different Type — so which
(earlier or later) contributor survives with its Type intact is not
determined by the program. -/
theorem claim2_counterexample :
    sortSpec contribFields contribFields
    ∧ sortSpec contribFields swappedFields
    ∧ dedupFields contribFields = [⟨"A", "a", "String", []⟩]
    ∧ dedupFields swappedFields = [⟨"A", "a", "Bool", []⟩]
    ∧ (⟨"A", "a", "Bool", []⟩ : structField).Typ ≠
        (⟨"A", "a", "String", []⟩ : structField).Typ := by
  refine ⟨⟨by decide, by decide⟩, ⟨by decide, by decide⟩, by decide, by decide, by decide⟩

/-- C2, amended: for every admissible output of the unstable sort
(any name-ordered permutation of the contributed fields), the dedup
pass keeps exactly the first same-named field of that sorted list,
whole: its find? result, hence its Type, JSONName and Description, is
exactly the first matching entry of the sorted list; every later
same-named field is discarded; exactly one field per contributed Name
remains, and every surviving field is one of the contributed fields —
but which same-named contribution survives depends on the order the
sort delivers, which the program leaves unspecified. -/
theorem claim2_dedup_contract (raw gs : List structField) (hgs : sortSpec raw gs) :
    (∀ n, (dedupFields gs).find? (fun f => f.Name == n) = gs.find? (fun f => f.Name == n))
    ∧ (∀ n, (dedupFields gs).countP (fun f => f.Name == n) =
        min (raw.countP (fun f => f.Name == n)) 1)
    ∧ (dedupFields gs).Sublist gs
    ∧ ((dedupFields gs).map (fun f => f.Name)).Nodup
    ∧ (∀ f ∈ dedupFields gs, f ∈ raw) := by
  refine ⟨fun n => dedupFieldsAux_find? gs [] n (by simp),
    fun n => ?_,
    dedupFieldsAux_sublist gs [],
    dedupFieldsAux_nodup gs [],
    fun f hf => hgs.1.subset ((dedupFieldsAux_sublist gs []).subset hf)⟩
  unfold dedupFields
  rw [dedupFieldsAux_countP gs [] n (by simp), hgs.1.countP_eq]

/-- C2, witness for the amended theorem, at the swapped admissible
sort output of the two same-named contributions. -/
theorem claim2_witness :
    (dedupFields swappedFields).countP (fun f => f.Name == "A") =
      min (contribFields.countP (fun f => f.Name == "A")) 1 :=
  (claim2_dedup_contract contribFields swappedFields ⟨by decide, by decide⟩).2.1 "A"

/-! ## Claim C3. -/

/-- The association list underlying an attribute iteration order; two
AttrLists describe the same schema node exactly when these lists are
permutations of each other. -/
def attrPairs : AttrList → List (String × AttrNode)
  | .nil => []
  | .cons n node rest => (n, node) :: attrPairs rest

/-- Config schema holding scalar attributes b and a, iterated b first. -/
def configSchemaBA : Schema :=
  ⟨[], .nil, .cons "b" (.scalar .string) (.cons "a" (.scalar .string) .nil)⟩

/-- The same config schema content, iterated a first. -/
def configSchemaAB : Schema :=
  ⟨[], .nil, .cons "a" (.scalar .string) (.cons "b" (.scalar .string) .nil)⟩

/-- C3, counterexample: the two schemas hold identical trace, layout
and config content (the config attribute maps agree as sets of
key-value pairs); only the unordered map iteration order differs, yet
WriteConfig hands the renderer different type graphs (the field order
differs), so two runs over the unchanged schema need not produce
byte-identical config output. -/
theorem claim3_counterexample :
    List.Perm (attrPairs configSchemaBA.config) (attrPairs configSchemaAB.config)
    ∧ configSchemaBA.traces = configSchemaAB.traces
    ∧ configSchemaBA.layout = configSchemaAB.layout
    ∧ buildConfigFile configSchemaBA ≠ buildConfigFile configSchemaAB
    ∧ (buildConfigFile configSchemaBA).MainType.Fields.map (fun f => f.Name) = ["B", "A"]
    ∧ (buildConfigFile configSchemaAB).MainType.Fields.map (fun f => f.Name) = ["A", "B"] := by
  refine ⟨by decide, by decide, by decide, by decide, by decide, by decide⟩

/-- C3, amended: WriteUnmarshal is deterministic in the schema alone,
because it sorts the collected trace type names: any two iteration
orders of the same traces map yield the same emitted type list. -/
theorem claim3_unmarshal_deterministic (s1 s2 : Schema)
    (h : List.Perm (s1.traces.map (fun p => p.1)) (s2.traces.map (fun p => p.1))) :
    buildUnmarshalTypes s1 = buildUnmarshalTypes s2 := by
  have hmap : List.Perm (s1.traces.map (fun p => toCamelCase p.1))
      (s2.traces.map (fun p => toCamelCase p.1)) := by
    have h1 : s1.traces.map (fun p => toCamelCase p.1)
        = (s1.traces.map (fun p => p.1)).map toCamelCase := by
      rw [List.map_map]; rfl
    have h2 : s2.traces.map (fun p => toCamelCase p.1)
        = (s2.traces.map (fun p => p.1)).map toCamelCase := by
      rw [List.map_map]; rfl
    rw [h1, h2]
    exact h.map toCamelCase
  have hperm : List.Perm (buildUnmarshalTypes s1) (buildUnmarshalTypes s2) :=
    ((List.perm_insertionSort _ _).trans hmap).trans (List.perm_insertionSort _ _).symm
  exact List.eq_of_perm_of_sorted hperm
    (List.sorted_insertionSort _ _) (List.sorted_insertionSort _ _)

/-- C3, witness for the amended theorem, at two iteration orders of a
two-trace schema. -/
theorem claim3_witness :
    buildUnmarshalTypes ⟨[("bar", default), ("scatter", default)], .nil, .nil⟩
      = buildUnmarshalTypes ⟨[("scatter", default), ("bar", default)], .nil, .nil⟩ :=
  claim3_unmarshal_deterministic
    ⟨[("bar", default), ("scatter", default)], .nil, .nil⟩
    ⟨[("scatter", default), ("bar", default)], .nil, .nil⟩ (by decide)

/-! ## Claim C4. -/

/-- Trace whose only attribute is the scalar a; its built field list
starts with the discriminator Type followed by A, which is not in
lexicographic order. -/
def oneAttrTrace : Trace := ⟨"scatter", "", .cons "a" (.scalar .string) .nil, .nil⟩

/-- C4, counterexample: WriteTrace applies no ordering pass (part_000
lines 77-144 contain no sort), so the trace main type field list Type,
A is not lexicographically sorted; likewise WriteConfig emits fields
in traversal order (B before A here), unsorted. -/
theorem claim4_counterexample :
    ¬ List.Pairwise (fun f g => fieldLe f g = true) (buildTraceFile oneAttrTrace).MainType.Fields
    ∧ (buildTraceFile oneAttrTrace).MainType.Fields.map (fun f => f.Name) = ["Type", "A"]
    ∧ ¬ List.Pairwise (fun f g => fieldLe f g = true)
        (buildConfigFile configSchemaBA).MainType.Fields := by
  refine ⟨by decide, by decide, by decide⟩

/-- C4, amended: only the layout target sorts. WriteLayout sorts its
main type fields by identifier and its enum list by Name (part_000
lines 215-216); duplicate-field removal preserves that order, so the
deduplicated layout field list is still sorted, and the names of the
merged enum list remain sorted. WriteTrace and WriteConfig apply no
ordering pass (refuted for them by the separate counterexample). -/
theorem claim4_layout_sorting (s : Schema) :
    List.Pairwise (fun f g => fieldLe f g = true) (layoutSortedFile s).MainType.Fields
    ∧ List.Pairwise (fun e u => enumLe e u = true) (layoutSortedFile s).Enums
    ∧ List.Pairwise (fun f g => fieldLe f g = true)
        (dedupFields (sortFields (layoutRawFile s).MainType.Fields))
    ∧ List.Pairwise (fun a b => strLe a b = true)
        (enumNames (buildLayoutFile s).Enums) := by
  refine ⟨List.sorted_insertionSort _ _, List.sorted_insertionSort _ _,
    (List.sorted_insertionSort _ _).sublist (dedupFieldsAux_sublist _ []), ?_⟩
  have hsorted : List.Pairwise (fun a b => strLe a b = true)
      (enumNames (sortEnums (layoutRawFile s).Enums)) := by
    have := List.sorted_insertionSort (fun e u => enumLe e u = true)
      (layoutRawFile s).Enums
    unfold enumNames
    rw [List.pairwise_map]
    exact this
  have hsub : (enumNames (mergeEnumsAux [] (sortEnums (layoutRawFile s).Enums))).Sublist
      (enumNames [] ++ enumNames (sortEnums (layoutRawFile s).Enums)) :=
    mergeEnumsAux_names_sublist _ []
  have : (buildLayoutFile s).Enums = mergeEnums (sortEnums (layoutRawFile s).Enums) := rfl
  rw [this]
  exact hsorted.sublist (by simpa [enumNames, mergeEnums] using hsub)

/-! ## Claim C5. -/

def suffixedXJson : List String := ["xaxis2", "xaxis3", "xaxis4", "xaxis5", "xaxis6"]

def suffixedYJson : List String := ["yaxis2", "yaxis3", "yaxis4", "yaxis5", "yaxis6"]

def suffixedAxisJson : List String := suffixedXJson ++ suffixedYJson

/-- The twelve axis-family wire names of the claim. -/
def axisJsonNames : List String :=
  ["xaxis", "yaxis", "xaxis2", "xaxis3", "xaxis4", "xaxis5", "xaxis6",
   "yaxis2", "yaxis3", "yaxis4", "yaxis5", "yaxis6"]

/-- The layout field list reaching the axis fix-up: sorted and
deduplicated, before the ten fields are appended. -/
def layoutDedupFields (s : Schema) : List structField :=
  dedupFields (sortFields (layoutRawFile s).MainType.Fields)

theorem countP_suffixed_zero (d : List structField) (n : String)
    (hsuf : d.countP (fun f => f.JSONName ∈ suffixedAxisJson) = 0)
    (hn : n ∈ suffixedAxisJson) :
    d.countP (fun f => f.JSONName == n) = 0 := by
  refine Nat.eq_zero_of_le_zero ?_
  rw [← hsuf]
  refine List.countP_mono_left ?_
  intro f hf hbeq
  simp only [decide_eq_true_eq]
  rw [eq_of_beq hbeq]
  exact hn

def emptySchema : Schema := ⟨[], .nil, .nil⟩

/-- C5, counterexample: on a schema contributing no attributes at all,
the generated Layout type has the ten suffixed axis fields but no base
xaxis or yaxis field, so it contains 10 axis-related fields rather
than the 12 the claim asserts for every schema, and the suffixed
fields have no base field to share a type with. -/
theorem claim5_counterexample :
    (buildLayoutFile emptySchema).MainType.Fields.countP
        (fun f => f.JSONName ∈ axisJsonNames) = 10
    ∧ (buildLayoutFile emptySchema).MainType.Fields.countP
        (fun f => f.JSONName == "xaxis") = 0
    ∧ (buildLayoutFile emptySchema).MainType.Fields.countP
        (fun f => f.JSONName == "yaxis") = 0 := by
  refine ⟨by decide, by decide, by decide⟩

/-- C5, amended: for every schema whose layout field list, at the
point the fix-up runs, carries exactly one base field with wire name
xaxis typed LayoutXaxis and one with wire name yaxis typed
LayoutYaxis and no field with a suffixed axis wire name, the generated
Layout type carries each of the twelve axis-family wire names exactly
once (12 in total): the ten appended fields have wire names xaxis2 to
xaxis6 and yaxis2 to yaxis6 and are typed LayoutXaxis and LayoutYaxis
respectively, identical to the corresponding base field types. -/
theorem claim5_axis_replication (s : Schema)
    (hx1 : (layoutDedupFields s).countP (fun f => f.JSONName == "xaxis") = 1)
    (hy1 : (layoutDedupFields s).countP (fun f => f.JSONName == "yaxis") = 1)
    (hxT : ∀ f ∈ layoutDedupFields s, f.JSONName = "xaxis" → f.Typ = "LayoutXaxis")
    (hyT : ∀ f ∈ layoutDedupFields s, f.JSONName = "yaxis" → f.Typ = "LayoutYaxis")
    (hsuf : (layoutDedupFields s).countP (fun f => f.JSONName ∈ suffixedAxisJson) = 0) :
    (∀ n ∈ axisJsonNames,
      (buildLayoutFile s).MainType.Fields.countP (fun f => f.JSONName == n) = 1)
    ∧ (axisJsonNames.map (fun n =>
        (buildLayoutFile s).MainType.Fields.countP (fun f => f.JSONName == n))).sum = 12
    ∧ (∀ f ∈ (buildLayoutFile s).MainType.Fields,
        f.JSONName ∈ suffixedXJson → f.Typ = "LayoutXaxis")
    ∧ (∀ f ∈ (buildLayoutFile s).MainType.Fields,
        f.JSONName ∈ suffixedYJson → f.Typ = "LayoutYaxis")
    ∧ (∀ f ∈ (buildLayoutFile s).MainType.Fields,
        f.JSONName = "xaxis" → f.Typ = "LayoutXaxis")
    ∧ (∀ f ∈ (buildLayoutFile s).MainType.Fields,
        f.JSONName = "yaxis" → f.Typ = "LayoutYaxis") := by
  have hsplit : (buildLayoutFile s).MainType.Fields = layoutDedupFields s ++ axisFields := rfl
  have hcount : ∀ n ∈ axisJsonNames,
      (buildLayoutFile s).MainType.Fields.countP (fun f => f.JSONName == n) = 1 := by
    intro n hn
    rw [hsplit, List.countP_append]
    fin_cases hn
    · rw [hx1]; decide
    · rw [hy1]; decide
    all_goals rw [countP_suffixed_zero (layoutDedupFields s) _ hsuf (by decide)]
    all_goals decide
  have hdX : ∀ f ∈ layoutDedupFields s, f.JSONName ∉ suffixedAxisJson := by
    intro f hf
    exact fun hmem => by
      have := List.countP_eq_zero.mp hsuf f hf
      simp only [decide_eq_true_eq] at this
      exact this hmem
  have haxX : ∀ f ∈ axisFields, f.JSONName ∈ suffixedXJson → f.Typ = "LayoutXaxis" := by decide
  have haxY : ∀ f ∈ axisFields, f.JSONName ∈ suffixedYJson → f.Typ = "LayoutYaxis" := by decide
  have haxBX : ∀ f ∈ axisFields, f.JSONName = "xaxis" → f.Typ = "LayoutXaxis" := by decide
  have haxBY : ∀ f ∈ axisFields, f.JSONName = "yaxis" → f.Typ = "LayoutYaxis" := by decide
  refine ⟨hcount, ?_, ?_, ?_, ?_, ?_⟩
  · have e1 := hcount "xaxis" (by decide)
    have e2 := hcount "yaxis" (by decide)
    have e3 := hcount "xaxis2" (by decide)
    have e4 := hcount "xaxis3" (by decide)
    have e5 := hcount "xaxis4" (by decide)
    have e6 := hcount "xaxis5" (by decide)
    have e7 := hcount "xaxis6" (by decide)
    have e8 := hcount "yaxis2" (by decide)
    have e9 := hcount "yaxis3" (by decide)
    have e10 := hcount "yaxis4" (by decide)
    have e11 := hcount "yaxis5" (by decide)
    have e12 := hcount "yaxis6" (by decide)
    simp only [axisJsonNames, List.map_cons, List.map_nil, List.sum_cons, List.sum_nil,
      e1, e2, e3, e4, e5, e6, e7, e8, e9, e10, e11, e12]
    norm_num
  · intro f hf hmem
    rw [hsplit] at hf
    rcases List.mem_append.mp hf with hf | hf
    · exact absurd (List.mem_append_left suffixedYJson hmem) (hdX f hf)
    · exact haxX f hf hmem
  · intro f hf hmem
    rw [hsplit] at hf
    rcases List.mem_append.mp hf with hf | hf
    · exact absurd (List.mem_append_right suffixedXJson hmem) (hdX f hf)
    · exact haxY f hf hmem
  · intro f hf he
    rw [hsplit] at hf
    rcases List.mem_append.mp hf with hf | hf
    · exact hxT f hf he
    · exact haxBX f hf he
  · intro f hf he
    rw [hsplit] at hf
    rcases List.mem_append.mp hf with hf | hf
    · exact hyT f hf he
    · exact haxBY f hf he

/-- Layout-only schema declaring the base xaxis and yaxis objects. -/
def baseAxisSchema : Schema :=
  ⟨[], .cons "xaxis" (.object .nil) (.cons "yaxis" (.object .nil) .nil), .nil⟩

/-- C5, witness for the amended theorem at a schema carrying the two
base axis fields. -/
theorem claim5_witness :
    (axisJsonNames.map (fun n =>
      (buildLayoutFile baseAxisSchema).MainType.Fields.countP
        (fun f => f.JSONName == n))).sum = 12 :=
  (claim5_axis_replication baseAxisSchema (by decide) (by decide) (by decide)
    (by decide) (by decide)).2.1

/-! ## Claim C10. -/

/-- C10: the axis fix-up runs on the deduplicated field list and
appends exactly the ten listed fields at the end, modifying nothing
else of the type graph; Objects and FlagLists (and, at the fix-up
step, Enums) are untouched, and the final layout field names are
duplicate-free exactly when the deduplicated schema-derived list
avoids the ten appended names. -/
theorem claim10_axis_fixup_frame (t : typeFile) (s : Schema) :
    (axisFixup t).MainType.Fields = t.MainType.Fields ++ axisFields
    ∧ (axisFixup t).MainType.Name = t.MainType.Name
    ∧ (axisFixup t).MainType.Description = t.MainType.Description
    ∧ (axisFixup t).Objects = t.Objects
    ∧ (axisFixup t).Enums = t.Enums
    ∧ (axisFixup t).FlagLists = t.FlagLists
    ∧ axisFields.length = 10
    ∧ axisFields.map (fun f => (f.Name, f.JSONName, f.Typ)) =
        [("XAxis2", "xaxis2", "LayoutXaxis"), ("XAxis3", "xaxis3", "LayoutXaxis"),
         ("XAxis4", "xaxis4", "LayoutXaxis"), ("XAxis5", "xaxis5", "LayoutXaxis"),
         ("XAxis6", "xaxis6", "LayoutXaxis"), ("YAxis2", "yaxis2", "LayoutYaxis"),
         ("YAxis3", "yaxis3", "LayoutYaxis"), ("YAxis4", "yaxis4", "LayoutYaxis"),
         ("YAxis5", "yaxis5", "LayoutYaxis"), ("YAxis6", "yaxis6", "LayoutYaxis")]
    ∧ (buildLayoutFile s).MainType.Fields = layoutDedupFields s ++ axisFields
    ∧ (buildLayoutFile s).Objects = (layoutRawFile s).Objects
    ∧ (buildLayoutFile s).FlagLists = (layoutRawFile s).FlagLists
    ∧ (((buildLayoutFile s).MainType.Fields.map (fun f => f.Name)).Nodup ↔
        ∀ f ∈ layoutDedupFields s, f.Name ∉ axisFields.map (fun g => g.Name)) := by
  refine ⟨rfl, rfl, rfl, rfl, rfl, rfl, by decide, by decide, rfl, rfl, rfl, ?_⟩
  have hsplit : (buildLayoutFile s).MainType.Fields = layoutDedupFields s ++ axisFields := rfl
  rw [hsplit, List.map_append, List.nodup_append]
  have h1 : ((layoutDedupFields s).map (fun f => f.Name)).Nodup := dedupFieldsAux_nodup _ []
  have h2 : ((axisFields.map (fun g => g.Name))).Nodup := by decide
  constructor
  · intro h f hf
    exact h.2.2 (List.mem_map_of_mem _ hf)
  · intro h
    refine ⟨h1, h2, ?_⟩
    intro a ha hb
    rcases List.mem_map.mp ha with ⟨f, hf, rfl⟩
    exact h f hf hb

/-- C10, witness: the frame and uniqueness statement applied to the
empty schema, where the deduplicated field list avoids the ten axis
names, so the final layout field names are duplicate-free. -/
theorem claim10_witness :
    ((buildLayoutFile ⟨[], .nil, .nil⟩).MainType.Fields.map (fun f => f.Name)).Nodup :=
  (claim10_axis_fixup_frame (layoutRawFile ⟨[], .nil, .nil⟩) ⟨[], .nil, .nil⟩).2.2.2.2.2.2.2.2.2.2.2.mpr
    (by decide)

/-! ## Claim C6. -/

/-- C6: for each of the four Create functions, the rendered text runs
through the format gate before any destination is opened; when the
gate rejects the text the function returns the wrapping error and the
file system is left exactly as it was: no destination created, no
bytes written. -/
theorem claim6_format_gate (fmtSource : FmtSource) (r : Renderers) (s : Schema)
    (dir name : String) (fs : FS) :
    (fmtSource (writeTraceOut r s name) = none →
      createTrace fmtSource r s dir name fs = (fs, some "cannot format source"))
    ∧ (fmtSource (writeLayoutOut r s) = none →
      createLayout fmtSource r s dir fs = (fs, some "cannot format source"))
    ∧ (fmtSource (writeConfigOut r s) = none →
      createConfig fmtSource r s dir fs = (fs, some "cannot format source"))
    ∧ (fmtSource (writeUnmarshalOut r s) = none →
      createUnmarshal fmtSource r s dir fs = (fs, some "cannot format source")) := by
  refine ⟨fun h => ?_, fun h => ?_, fun h => ?_, fun h => ?_⟩
  · simp [createTrace, persist, h]
  · simp [createLayout, persist, h]
  · simp [createConfig, persist, h]
  · simp [createUnmarshal, persist, h]

/-- Renderers that emit nothing, for concrete instantiation. -/
def nullRenderers : Renderers := ⟨fun _ => "", fun _ => "", fun _ => "", fun _ => ""⟩

/-- C6, witness: with a format gate that rejects everything, all four
Create functions fail and leave the empty file system untouched. -/
theorem claim6_witness :
    createTrace (fun _ => none) nullRenderers emptySchema "d" "scatter" ⟨[]⟩
        = (⟨[]⟩, some "cannot format source")
    ∧ createLayout (fun _ => none) nullRenderers emptySchema "d" ⟨[]⟩
        = (⟨[]⟩, some "cannot format source")
    ∧ createConfig (fun _ => none) nullRenderers emptySchema "d" ⟨[]⟩
        = (⟨[]⟩, some "cannot format source")
    ∧ createUnmarshal (fun _ => none) nullRenderers emptySchema "d" ⟨[]⟩
        = (⟨[]⟩, some "cannot format source") := by
  have h := claim6_format_gate (fun _ => none) nullRenderers emptySchema "d" "scatter" ⟨[]⟩
  exact ⟨h.1 rfl, h.2.1 rfl, h.2.2.1 rfl, h.2.2.2 rfl⟩

/-! ## Claim C7. -/

/-- Whether a character is one of the fifteen raw-table symbols. -/
def isSymbolChar (c : Char) : Bool :=
  (toPairs symbolMap).any (fun p => p.1 = String.singleton c)

theorem charImage_no_symbol (c : Char) (d : Char) (hd : d ∈ (charImage c).data) :
    isSymbolChar d = false := by
  have hwords : ∀ p ∈ toPairs symbolMap, ∀ e ∈ p.2.data, isSymbolChar e = false := by decide
  unfold charImage at hd
  cases hfind : (toPairs symbolMap).find? (fun p => p.1 = String.singleton c) with
  | some p =>
    rw [hfind] at hd
    exact hwords p (List.mem_of_find?_eq_some hfind) d hd
  | none =>
    rw [hfind] at hd
    have hc : d = c := by simpa using hd
    rw [hc]
    have hall := List.find?_eq_none.mp hfind
    unfold isSymbolChar
    rw [List.any_eq_false]
    intro p hp
    simpa using hall p hp

theorem cleanChars_no_symbol (l : List Char) (d : Char) (hd : d ∈ cleanChars l) :
    isSymbolChar d = false := by
  induction l with
  | nil => simp [cleanChars] at hd
  | cons c rest ih =>
    simp only [cleanChars] at hd
    rcases List.mem_append.mp hd with hd | hd
    · exact charImage_no_symbol c d hd
    · exact ih hd

/-- C7: identifier synthesis never leaves a raw-table symbol in its
output: the table has fifteen single-character patterns with fifteen
distinct replacement words, the substitution is the single
left-to-right per-character pass of the byte replacer (replacement
output is never re-scanned), no character of the result is a
raw-table symbol, and bottom-left becomes bottomHyphenleft, which
contains Hyphen and no hyphen character. -/
theorem claim7_clean_name (s : String) :
    (∀ c ∈ (cleanName s).data, isSymbolChar c = false)
    ∧ (toPairs symbolMap).length = 15
    ∧ ((toPairs symbolMap).map (fun p => p.2)).Nodup
    ∧ (∀ p ∈ toPairs symbolMap, p.1.data.length = 1)
    ∧ cleanName "bottom-left" = "bottomHyphenleft"
    ∧ cleanName "bottom-left" = "bottom" ++ "Hyphen" ++ "left"
    ∧ '-' ∉ (cleanName "bottom-left").data := by
  refine ⟨fun c hc => cleanChars_no_symbol s.data c hc, by decide, by decide, by decide,
    by decide, by decide, by decide⟩

/-- C7, witness: the no-symbol guarantee applied to a concrete
character of a concrete cleaned name. -/
theorem claim7_witness : isSymbolChar 'H' = false :=
  (claim7_clean_name "bottom-left").1 'H' (by decide)

/-! ## Claim C8. -/

theorem escChars_ne_nil (l : List Char) (h : l ≠ []) : escChars l ≠ [] := by
  cases l with
  | nil => exact absurd rfl h
  | cons c rest =>
    by_cases hc : c = '\\'
    · simp [escChars, hc]
    · simp [escChars, hc]

theorem unescChars_cons_cons (c d : Char) (rest : List Char) :
    unescChars (c :: d :: rest) =
      if c = '\\' ∧ d = '\\' then '\\' :: unescChars rest
      else c :: unescChars (d :: rest) := by
  rfl

theorem unescChars_escChars (l : List Char) : unescChars (escChars l) = l := by
  induction l with
  | nil => rfl
  | cons c rest ih =>
    by_cases hc : c = '\\'
    · subst hc
      rw [show escChars ('\\' :: rest) = '\\' :: '\\' :: escChars rest from by
        simp [escChars]]
      rw [unescChars_cons_cons, if_pos ⟨rfl, rfl⟩, ih]
    · rw [show escChars (c :: rest) = c :: escChars rest from by simp [escChars, hc]]
      cases hrest : escChars rest with
      | nil =>
        have hrnil : rest = [] := by
          by_contra hne
          exact escChars_ne_nil rest hne hrest
        subst hrnil
        simp [escChars, unescChars]
      | cons d ds =>
        rw [unescChars_cons_cons]
        rw [if_neg (fun hand => hc hand.1)]
        rw [← hrest]
        rw [ih]

theorem escChars_count (l : List Char) :
    (escChars l).count '\\' = 2 * l.count '\\' := by
  induction l with
  | nil => simp [escChars]
  | cons c rest ih =>
    by_cases hc : c = '\\'
    · subst hc
      simp [escChars, List.count_cons, ih]
      omega
    · simp [escChars, hc, List.count_cons, ih]

theorem escChars_filter (l : List Char) :
    (escChars l).filter (fun c => c ≠ '\\') = l.filter (fun c => c ≠ '\\') := by
  induction l with
  | nil => rfl
  | cons c rest ih =>
    by_cases hc : c = '\\'
    · subst hc
      simpa [escChars, List.filter_cons] using ih
    · simpa [escChars, hc, List.filter_cons] using ih

/-- C8: string-literal escaping doubles each backslash (the backslash
count doubles exactly) and changes nothing else (the non-backslash
characters are untouched, in order), and the escaping round-trips:
collapsing each doubled backslash recovers the original string; a
value with one backslash is embedded with two. -/
theorem claim8_clean_value (s : String) :
    unescValue (cleanValue s) = s
    ∧ (cleanValue s).data.count '\\' = 2 * s.data.count '\\'
    ∧ (cleanValue s).data.filter (fun c => c ≠ '\\') = s.data.filter (fun c => c ≠ '\\')
    ∧ cleanValue "a\\b" = "a\\\\b"
    ∧ ("a\\b".data.count '\\' = 1 ∧ "a\\\\b".data.count '\\' = 2) := by
  refine ⟨?_, escChars_count s.data, escChars_filter s.data, by decide, by decide, by decide⟩
  show String.mk (unescChars (escChars s.data)) = s
  rw [unescChars_escChars]

/-! ## Claim C9. -/

theorem traceHeader_marker (N n B : String) :
    ∃ a b : String, traceHeader N n ++ B = a ++ doNotEdit ++ b := by
  refine ⟨"package grob\n\n",
    "\n\nvar TraceType" ++ N ++ " TraceType = \"" ++ n ++ "\"\n\nfunc (trace *" ++ N ++
      ") GetType() TraceType \x7b\n\treturn TraceType" ++ N ++ "\n\x7d\n" ++ B, ?_⟩
  unfold traceHeader
  simp only [String.append_assoc]

theorem traceHeader_const (N n B : String) :
    ∃ a b : String, traceHeader N n ++ B =
      a ++ ("var TraceType" ++ N ++ " TraceType = \"" ++ n ++ "\"") ++ b := by
  have hs1 : ("\n\nvar TraceType" : String) = "\n\n" ++ "var TraceType" := by decide
  have hs2 : ("\"\n\nfunc (trace *" : String) = "\"" ++ "\n\nfunc (trace *" := by decide
  refine ⟨"package grob\n\n" ++ doNotEdit ++ "\n\n",
    "\n\nfunc (trace *" ++ N ++ ") GetType() TraceType \x7b\n\treturn TraceType" ++ N ++
      "\n\x7d\n" ++ B, ?_⟩
  unfold traceHeader
  rw [hs1, hs2]
  simp only [String.append_assoc]

theorem traceHeader_accessor (N n B : String) :
    ∃ a b : String, traceHeader N n ++ B =
      a ++ ("func (trace *" ++ N ++ ") GetType() TraceType \x7b\n\treturn TraceType" ++
        N ++ "\n\x7d") ++ b := by
  have hs3 : ("\"\n\nfunc (trace *" : String) = "\"\n\n" ++ "func (trace *" := by decide
  have hs4 : ("\n\x7d\n" : String) = "\n\x7d" ++ "\n" := by decide
  refine ⟨"package grob\n\n" ++ doNotEdit ++ "\n\nvar TraceType" ++ N ++ " TraceType = \"" ++
      n ++ "\"\n\n", "\n" ++ B, ?_⟩
  unfold traceHeader
  rw [hs3, hs4]
  simp only [String.append_assoc]

/-- C9: the text WriteTrace emits contains the machine-generated
do-not-edit marker; the trace main type has the fixed discriminator
(identifier Type, wire name type, type TraceType) as its first field;
the text contains the constant declaration binding the camel-cased
trace type name to the wire-level trace name, and the accessor
returning that constant; and the emitted unit is the header followed
by the main type, then the nested object, enum and flag-list types it
references, in that order. -/
theorem claim9_trace_artifact (r : Renderers) (s : Schema) (traceName : String) :
    (buildTraceFile (lookupTrace s traceName)).MainType.Fields.head? = some discriminatorField
    ∧ discriminatorField = ⟨"Type", "type", "TraceType", ["is the type of the plot"]⟩
    ∧ (∃ a b : String, writeTraceOut r s traceName = a ++ doNotEdit ++ b)
    ∧ (∃ a b : String, writeTraceOut r s traceName =
        a ++ ("var TraceType" ++ (buildTraceFile (lookupTrace s traceName)).MainType.Name ++
          " TraceType = \"" ++ traceName ++ "\"") ++ b)
    ∧ (∃ a b : String, writeTraceOut r s traceName =
        a ++ ("func (trace *" ++ (buildTraceFile (lookupTrace s traceName)).MainType.Name ++
          ") GetType() TraceType \x7b\n\treturn TraceType" ++
          (buildTraceFile (lookupTrace s traceName)).MainType.Name ++ "\n\x7d") ++ b)
    ∧ writeTraceOut r s traceName =
        traceHeader (buildTraceFile (lookupTrace s traceName)).MainType.Name traceName ++
          (r.renderStruct (buildTraceFile (lookupTrace s traceName)).MainType ++
            (String.join ((buildTraceFile (lookupTrace s traceName)).Objects.map r.renderStruct) ++
              (String.join ((buildTraceFile (lookupTrace s traceName)).Enums.map r.renderEnum) ++
                String.join ((buildTraceFile (lookupTrace s traceName)).FlagLists.map r.renderFlag)))) := by
  refine ⟨rfl, rfl, ?_, ?_, ?_, ?_⟩
  · exact traceHeader_marker (buildTraceFile (lookupTrace s traceName)).MainType.Name traceName
      (renderBody r (buildTraceFile (lookupTrace s traceName)))
  · exact traceHeader_const (buildTraceFile (lookupTrace s traceName)).MainType.Name traceName
      (renderBody r (buildTraceFile (lookupTrace s traceName)))
  · exact traceHeader_accessor (buildTraceFile (lookupTrace s traceName)).MainType.Name traceName
      (renderBody r (buildTraceFile (lookupTrace s traceName)))
  · show traceHeader _ traceName ++ renderBody r _ = _
    unfold renderBody
    simp only [String.append_assoc]

end GoPlotly
